import Mathlib

/-!
Verification of the manga EPUB rebuilder (`src/core/manga_processor.py`).

The development shallowly embeds the Python source.  A ZIP archive is a
list of (entry name, entry bytes) pairs; bytes are modelled as `String`
(the code decodes with errors ignored, and only presence/identity of the
bytes matters).  Python string routines used by the source
(`os.path.join`, `os.path.normpath`, `os.path.dirname`,
`os.path.splitext`, `pathlib.PurePosixPath` joining, `str.strip`,
`str.endswith`, and the two `re.search` patterns) are re-implemented
over `List Char`, following CPython's posixpath/pathlib/sre semantics.
`re.IGNORECASE` is modelled as ASCII case-insensitivity.

The two calls into `xml.etree.ElementTree` (parsing
`META-INF/container.xml` for the rootfile path, and parsing the OPF
into the manifest dictionary and spine id list) are abstracted as
oracle arguments: a function returning `none` exactly when the
corresponding Python expression raises.  Every theorem below either
quantifies over these oracles or instantiates them at concrete values.
-/

namespace MangaProc

/-! ## Character and string primitives -/

/-- ASCII lower-casing of a code point, as CPython's `sre` does for the
ASCII range under `re.IGNORECASE`. -/
def lcN (n : Nat) : Nat := if 65 ≤ n ∧ n ≤ 90 then n + 32 else n

/-- Case-insensitive character comparison (models `re.IGNORECASE`). -/
def charCI (a b : Char) : Bool := lcN a.toNat == lcN b.toNat

/-- Exact leading-match test: does `p` occur at the head of the string? -/
def leadEq : List Char → List Char → Bool
  | [], _ => true
  | _ :: _, [] => false
  | p :: ps, c :: cs => p == c && leadEq ps cs

/-- Case-insensitive leading-match test. -/
def leadCI : List Char → List Char → Bool
  | [], _ => true
  | _ :: _, [] => false
  | p :: ps, c :: cs => charCI p c && leadCI ps cs

/-- `str.endswith` on exact characters. -/
def endsWithS (s suf : String) : Bool := leadEq suf.data.reverse s.data.reverse

/-- Split on a separator character, keeping empty parts
(Python `str.split(sep)` semantics). -/
def splitChar (sep : Char) : List Char → List (List Char)
  | [] => [[]]
  | c :: cs =>
    if c == sep then [] :: splitChar sep cs
    else
      match splitChar sep cs with
      | h :: t => (c :: h) :: t
      | [] => [[c]]

/-- Join segments with a separator character. -/
def joinSegs : List (List Char) → List Char
  | [] => []
  | [s] => s
  | s :: ss => s ++ '/' :: joinSegs ss

/-- Python `str.strip()` whitespace set (ASCII part). -/
def isPySpace (c : Char) : Bool :=
  c == ' ' || c == '\t' || c == '\n' || c == '\r' || c == '\x0b' || c == '\x0c'

/-- Python `str.strip()`. -/
def stripChars (l : List Char) : List Char :=
  ((l.dropWhile isPySpace).reverse.dropWhile isPySpace).reverse

/-! ## posixpath routines used at `manga_processor.py:94-102` -/

/-- `os.path.join(a, b)` (posix flavour). -/
def posixJoinS (a b : String) : String :=
  if leadEq ['/'] b.data then b
  else if a.data = [] ∨ a.data.getLast? = some '/' then String.mk (a.data ++ b.data)
  else String.mk (a.data ++ '/' :: b.data)

/-- The `..` path segment. -/
def dotdot : List Char := ['.', '.']

/-- The component-normalisation loop of `posixpath.normpath`: drop empty
and `.` components; `..` pops a previous component, except that leading
`..` is kept on relative paths and dropped on absolute ones.
`acc` holds the output components in reverse. -/
def normSegs (abs : Bool) (acc : List (List Char)) : List (List Char) → List (List Char)
  | [] => acc.reverse
  | c :: cs =>
    if c = [] ∨ c = ['.'] then normSegs abs acc cs
    else if c ≠ dotdot then normSegs abs (c :: acc) cs
    else
      match acc with
      | [] => if abs then normSegs abs [] cs else normSegs abs [dotdot] cs
      | h :: t => if h = dotdot then normSegs abs (c :: h :: t) cs else normSegs abs t cs

/-- Number of leading slashes `posixpath.normpath` preserves
(`//` exactly is kept double, anything else collapses to one). -/
def slashCount (l : List Char) : Nat :=
  if leadEq ['/', '/', '/'] l then 1
  else if leadEq ['/', '/'] l then 2
  else if leadEq ['/'] l then 1
  else 0

/-- Final assembly of `posixpath.normpath`: the preserved leading
slashes, the joined components, and the empty-path fallback to `.`. -/
def normRender (k : Nat) (segs : List (List Char)) : String :=
  if List.replicate k '/' ++ joinSegs segs = [] then "."
  else String.mk (List.replicate k '/' ++ joinSegs segs)

/-- `os.path.normpath(p)` (posix flavour). -/
def posixNormpath (p : String) : String :=
  if p.data = [] then "."
  else
    normRender (slashCount p.data)
      (normSegs (decide (0 < slashCount p.data)) [] (splitChar '/' p.data))

/-- `.replace('\\', '/')` (single-character replacement). -/
def replaceBS (s : String) : String :=
  String.mk (s.data.map fun c => if c == '\\' then '/' else c)

/-- Image path resolution, `manga_processor.py:102`:
`os.path.normpath(os.path.join(html_folder, img_src)).replace('\\', '/')`. -/
def resolveImgPath (htmlFolder imgSrc : String) : String :=
  replaceBS (posixNormpath (posixJoinS htmlFolder imgSrc))

/-- `os.path.dirname(p)` (posix flavour). -/
def posixDirname (p : String) : String :=
  let head := (p.data.reverse.dropWhile (· ≠ '/')).reverse
  if head ≠ [] ∧ ¬ head.all (· == '/') then
    String.mk (head.reverse.dropWhile (· == '/')).reverse
  else String.mk head

/-- The extension part of `os.path.splitext(p)` (posix flavour): the
suffix from the last dot of the basename, provided some earlier basename
character is not a dot. -/
def splitextExt (p : String) : String :=
  let base := (p.data.reverse.takeWhile (· ≠ '/')).reverse
  let rev := base.reverse
  let extRev := rev.takeWhile (· ≠ '.')
  if extRev.length = rev.length then ""
  else
    let nameRev := rev.drop (extRev.length + 1)
    if nameRev.all (· == '.') then ""
    else String.mk ('.' :: extRev.reverse)

/-- `pathlib.PurePosixPath` parsing: root plus components
(empty and `.` components are dropped by pathlib). -/
def pPathParse (s : String) : String × List (List Char) :=
  let root := if leadEq ['/', '/', '/'] s.data then "/"
    else if leadEq ['/', '/'] s.data then "//"
    else if leadEq ['/'] s.data then "/"
    else ""
  (root, (splitChar '/' s.data).filter fun c => c ≠ [] ∧ c ≠ ['.'])

/-- `(pathlib.Path(a) / b).as_posix()`, `manga_processor.py:77`. -/
def pathlibJoin (a b : String) : String :=
  let pa := pPathParse a
  let pb := pPathParse b
  let r := if pb.1 ≠ "" then pb else (pa.1, pa.2 ++ pb.2)
  if r.1 = "" ∧ r.2 = [] then "."
  else r.1 ++ String.mk (joinSegs r.2)

/-! ## The two `re.search` patterns -/

/-- Find the first (case-insensitive) occurrence of `pat`; return the
text before and after it. -/
def splitAtCI (pat : List Char) : List Char → Option (List Char × List Char)
  | [] => if pat.isEmpty then some ([], []) else none
  | c :: cs =>
    if leadCI pat (c :: cs) then some ([], (c :: cs).drop pat.length)
    else
      match splitAtCI pat cs with
      | some (pre, post) => some (c :: pre, post)
      | none => none

/-- Skip to just past the first `>` (the deterministic reading of the
greedy `[^>]*>` in the title/creator pattern). -/
def scanGt : List Char → Option (List Char)
  | [] => none
  | c :: cs => if c == '>' then some cs else scanGt cs

/-- One anchored attempt of `<dc:TAG[^>]*>(.*?)</dc:TAG>` at the head of
`l` (`re.IGNORECASE | re.DOTALL`). -/
def tryAt (openP closeP : List Char) (l : List Char) : Option (List Char) :=
  if leadCI openP l then
    match scanGt (l.drop openP.length) with
    | some afterGt =>
      match splitAtCI closeP afterGt with
      | some (cap, _) => some cap
      | none => none
    | none => none
  else none

/-- Leftmost search loop for the title/creator pattern. -/
def dcGo (openP closeP : List Char) : List Char → Option (List Char)
  | [] => none
  | c :: cs =>
    match tryAt openP closeP (c :: cs) with
    | some cap => some cap
    | none => dcGo openP closeP cs

/-- Opening literal of the pattern `<dc:TAG[^>]*>(.*?)</dc:TAG>`. -/
def openOf (tag : List Char) : List Char := '<' :: 'd' :: 'c' :: ':' :: tag

/-- Closing literal of the pattern `<dc:TAG[^>]*>(.*?)</dc:TAG>`. -/
def closeOf (tag : List Char) : List Char := '<' :: '/' :: 'd' :: 'c' :: ':' :: (tag ++ ['>'])

/-- `re.search(r'<dc:TAG[^>]*>(.*?)</dc:TAG>', s, re.IGNORECASE | re.DOTALL)`,
returning the captured group (`manga_processor.py:39-40`). -/
def dcCapture (tag : List Char) (l : List Char) : Option (List Char) :=
  dcGo (openOf tag) (closeOf tag) l

/-- Is either quote character? (the `["\']` character class). -/
def isQuote (c : Char) : Bool := c == '"' || c == '\''

/-- The lazy capture `(.*?)["\']` without `re.DOTALL`: up to the first
quote, failing on a newline. -/
def scanCapture : List Char → Option (List Char)
  | [] => none
  | c :: cs =>
    if isQuote c then some []
    else if c == '\n' then none
    else (scanCapture cs).map (c :: ·)

/-- Attempt `src=["\'](.*?)["\']` at the head of `rest`. -/
def imgTrySrc (rest : List Char) : Option (List Char) :=
  if leadCI ['s', 'r', 'c', '='] rest then
    match rest.drop 4 with
    | q :: rest2 => if isQuote q then scanCapture rest2 else none
    | [] => none
  else none

/-- All completions of `[^>]+src=["\'](.*?)["\']` after `<img`, listed
with the shortest `[^>]+` first.  The walk stops at the first `>`. -/
def imgWalk : List Char → List (List Char)
  | [] => []
  | c :: cs =>
    if c == '>' then []
    else
      (match imgTrySrc cs with
       | some cap => [cap]
       | none => []) ++ imgWalk cs

/-- Leftmost search loop for the image pattern: at each position try
`<img`, then take the greedy (longest-`[^>]+`) completion. -/
def imgGo : List Char → Option (List Char)
  | [] => none
  | c :: cs =>
    if leadCI ['<', 'i', 'm', 'g'] (c :: cs) then
      match (imgWalk ((c :: cs).drop 4)).getLast? with
      | some cap => some cap
      | none => imgGo cs
    else imgGo cs

/-- `re.search(r'<img[^>]+src=["\'](.*?)["\']', html, re.IGNORECASE)`,
returning the captured group (`manga_processor.py:88`). -/
def findImgSrc (html : String) : Option String :=
  (imgGo html.data).map String.mk

/-! ## Archive model and `get_epub_info` (`manga_processor.py:16-48`) -/

/-- A ZIP archive: entry names with their bytes (bytes modelled as
`String`; the source decodes with `errors='ignore'`). -/
abbrev Archive := List (String × String)

/-- `zip_ref.read(p)`: `none` models the `KeyError` for a missing name.
For duplicate names `zipfile`'s name table keeps the last entry. -/
def zipRead (z : Archive) (p : String) : Option String :=
  z.foldl (fun acc e => if e.1 = p then some e.2 else acc) none

/-- `zip_ref.namelist()`. -/
def zipNamelist (z : Archive) : List String := z.map Prod.fst

/-- Python `dict` built by insertion (last write wins), then lookup. -/
def dictLookup (m : List (String × String)) (k : String) : Option String :=
  m.foldl (fun acc e => if e.1 = k then some e.2 else acc) none

/-- `title_match.group(1).strip() if title_match else "Unknown Manga"`. -/
def extractTitle (opfStr : String) : String :=
  match dcCapture "title".data opfStr.data with
  | some b => String.mk (stripChars b)
  | none => "Unknown Manga"

/-- `creator_match.group(1).strip() if creator_match else "Unknown Author"`. -/
def extractCreator (opfStr : String) : String :=
  match dcCapture "creator".data opfStr.data with
  | some b => String.mk (stripChars b)
  | none => "Unknown Author"

/-- The `metadata` dictionary built by `get_epub_info`. -/
structure EpubMeta where
  title : String
  creator : String
  opfPath : String
  opfDir : String
deriving DecidableEq, Repr

/-- How `get_epub_info` can raise: `structureError` is the
`FileNotFoundError` of line 31 (no rootfile pointer and no `.opf`
entry); `readError` is the uncaught `KeyError` of line 35 (the resolved
OPF path is not in the archive). -/
inductive EpubError where
  | structureError
  | readError
deriving DecidableEq, Repr

/-- Tier 1 (read `META-INF/container.xml` and parse out the rootfile
path) followed by the tier-2 scan for the first `.opf` entry.
`parseRootfile` is the XML-parsing oracle: `none` exactly when
`ET.fromstring(...)` / `.find(...)` / `.attrib['full-path']` raises. -/
def findOpfPath (parseRootfile : String → Option String) (z : Archive) : Option String :=
  match (zipRead z "META-INF/container.xml").bind parseRootfile with
  | some p => some p
  | none => (zipNamelist z).find? fun f => endsWithS f ".opf"

/-- `get_epub_info(zip_ref)`, `manga_processor.py:16-48`. -/
def getEpubInfo (parseRootfile : String → Option String) (z : Archive) :
    Except EpubError EpubMeta :=
  match findOpfPath parseRootfile z with
  | none => .error .structureError
  | some opfPath =>
    match zipRead z opfPath with
    | none => .error .readError
    | some opfStr =>
      .ok { title := extractTitle opfStr
            creator := extractCreator opfStr
            opfPath := opfPath
            opfDir := posixDirname opfPath }

/-! ## Spine-order extraction (`manga_processor.py:50-127`) -/

/-- The warnings the extractor can log. -/
inductive LogEvent where
  | warnChapterFail : String → LogEvent
  | warnMissingImage : String → LogEvent
  | warnFallback : LogEvent
deriving DecidableEq, Repr

/-- Extractor state: images collected so far (identified by their
normalised in-archive source path, which determines the bytes written
to `source_{i:05d}{ext}`) and the warnings logged so far. -/
structure ExtState where
  images : List String
  log : List LogEvent
deriving DecidableEq, Repr

/-- The content-document path for a spine item: the pathlib join of
lines 77 with the single-slash strip of line 82. -/
def stepHtmlPath (opfDir href : String) : String :=
  let hp0 := pathlibJoin opfDir href
  if leadEq ['/'] hp0.data then String.mk (hp0.data.drop 1) else hp0

/-- One iteration of the spine loop (`manga_processor.py:72-120`):
* a spine id absent from the manifest is skipped silently (line 73);
* an unreadable content document logs the line-119 warning and skips;
* a content document with no image match does nothing (no `else` on
  line 90);
* an image path missing from the archive logs the line-116 warning and
  skips;
* otherwise the image is appended. -/
def extractStep (z : Archive) (manifest : List (String × String)) (opfDir : String)
    (st : ExtState) (itemId : String) : ExtState :=
  match dictLookup manifest itemId with
  | none => st
  | some href =>
    let hp := stepHtmlPath opfDir href
    match zipRead z hp with
    | none => { st with log := st.log ++ [.warnChapterFail hp] }
    | some html =>
      match findImgSrc html with
      | none => st
      | some imgSrc =>
        let np := resolveImgPath (posixDirname hp) imgSrc
        match zipRead z np with
        | none => { st with log := st.log ++ [.warnMissingImage np] }
        | some _ => { st with images := st.images ++ [np] }

/-- `extract_images_in_order` (`manga_processor.py:50-127`), given the
already-parsed manifest dictionary and spine id list.  When the walk
finds nothing, line 124 logs the fallback warning — and nothing else:
the fallback body is elided in the source (line 125). -/
def extractResult (z : Archive) (manifest : List (String × String))
    (spineIds : List String) (opfDir : String) : ExtState :=
  let st := spineIds.foldl (extractStep z manifest opfDir) ⟨[], []⟩
  if st.images.isEmpty then { st with log := st.log ++ [.warnFallback] } else st

/-! ## Rebuild engine (`manga_processor.py:129-237`) -/

/-- The style configuration (`pages_per_chapter`, `chapter_template`,
`css`).  The chapter template's `str.format` call is modelled as a
function of the two fields it is filled with. -/
structure StyleConfig where
  pagesPerChapter : Nat
  chapterTemplate : Nat → Nat → String
  css : List String

/-- Decimal digits of `n` (most significant first), structural in a fuel
argument so that it evaluates in the kernel. -/
def decChars : Nat → Nat → List Char
  | 0, _ => []
  | fuel + 1, n =>
    if n < 10 then [Char.ofNat (48 + n)]
    else decChars fuel (n / 10) ++ [Char.ofNat (48 + n % 10)]

/-- `str(n)` for a natural number. -/
def natStr (n : Nat) : String := String.mk (decChars (n + 1) n)

/-- `f"{n:04d}"` for a natural number. -/
def pad4 (n : Nat) : String :=
  String.mk (List.replicate (4 - (decChars (n + 1) n).length) '0' ++ decChars (n + 1) n)

/-- `img_path.suffix` of the temporary file `source_{i:05d}{ext}` where
`ext = os.path.splitext(normalized_path)[1]`: pathlib yields the empty
suffix when `ext` is empty or a bare dot. -/
def extOf (srcPath : String) : String :=
  let e := splitextExt srcPath
  if 2 ≤ e.length then e else ""

/-- `f"page_{i:04d}.xhtml"`. -/
def pageName (i : Nat) : String := "page_" ++ pad4 i ++ ".xhtml"

/-- `f"img_{i:04d}{ext}"`. -/
def imgName (i : Nat) (ext : String) : String := "img_" ++ pad4 i ++ ext

/-- The page document written at `manga_processor.py:176-180`. -/
def pageContent (i : Nat) (imgN : String) : String :=
  "<?xml version=\"1.0\" encoding=\"utf-8\"?>\n<!DOCTYPE html><html xmlns=\"http://www.w3.org/1999/xhtml\"><head>\n<link rel=\"stylesheet\" type=\"text/css\" href=\"style.css\"/><title>"
    ++ natStr (i + 1)
    ++ "</title></head>\n<body><div class=\"page-box\"><img src=\"images/"
    ++ imgN ++ "\"/></div></body></html>"

/-- Manifest entry for page `i` (`manga_processor.py:182`). -/
def pageItem (i : Nat) : String :=
  "<item id=\"p" ++ natStr i ++ "\" href=\"" ++ pageName i
    ++ "\" media-type=\"application/xhtml+xml\"/>"

/-- Python `str.lower()` (ASCII part). -/
def lowerStr (s : String) : String :=
  String.mk (s.data.map fun c =>
    if 'A' ≤ c ∧ c ≤ 'Z' then Char.ofNat (c.toNat + 32) else c)

/-- Exact substring test (Python `in`). -/
def containsSub (hay pat : List Char) : Bool :=
  match hay with
  | [] => leadEq pat []
  | _ :: cs => leadEq pat hay || containsSub cs pat

/-- The media type chosen at `manga_processor.py:183`. -/
def mediaType (ext : String) : String :=
  if containsSub (lowerStr ext).data "jpg".data || containsSub (lowerStr ext).data "jpeg".data
  then "image/jpeg"
  else "image/" ++ String.mk (ext.data.drop 1)

/-- Manifest entry for image `i` (`manga_processor.py:184`). -/
def imgItem (i : Nat) (ext : String) : String :=
  "<item id=\"i" ++ natStr i ++ "\" href=\"images/" ++ imgName i ext
    ++ "\" media-type=\"" ++ mediaType ext ++ "\"/>"

/-- Spine entry for page `i` (`manga_processor.py:185`). -/
def itemrefStr (i : Nat) : String := "<itemref idref=\"p" ++ natStr i ++ "\"/>"

/-- Navigation list entry (`manga_processor.py:192`). -/
def tocLinkStr (i : Nat) (chapterTitle : String) : String :=
  "<li><a href=\"" ++ pageName i ++ "\">" ++ chapterTitle ++ "</a></li>"

/-- Everything the rebuild loop and serialisation produce in the build
directory (the output archive's contents). -/
structure RebuildOutput where
  pages : List (String × String)
  imgsOut : List (String × String)
  manifestItems : List String
  spine : List String
  tocLinks : List String
  opf : String
  nav : String
deriving DecidableEq

/-- The OPF document generated at `manga_processor.py:198-213`. -/
def opfContentStr (title creator uuidHex coverMeta : String)
    (manifestItems spine : List String) : String :=
  "<?xml version=\"1.0\" encoding=\"UTF-8\"?>\n<package xmlns=\"http://www.idpf.org/2007/opf\" version=\"3.0\" unique-identifier=\"id\">\n<metadata xmlns:dc=\"http://purl.org/dc/elements/1.1/\">\n    <dc:identifier id=\"id\">urn:uuid:"
    ++ uuidHex ++ "</dc:identifier>\n    <dc:title>" ++ title
    ++ "</dc:title>\n    <dc:creator>" ++ creator
    ++ "</dc:creator>\n    <dc:language>zh</dc:language>\n    " ++ coverMeta
    ++ "\n</metadata>\n<manifest>\n    <item id=\"css\" href=\"style.css\" media-type=\"text/css\"/>\n    <item id=\"nav\" href=\"nav.xhtml\" properties=\"nav\" media-type=\"application/xhtml+xml\"/>\n    "
    ++ String.join manifestItems
    ++ "\n</manifest>\n<spine>" ++ String.join spine ++ "</spine>\n</package>"

/-- The navigation document generated at `manga_processor.py:217-219`. -/
def navContentStr (tocLinks : List String) : String :=
  "<?xml version=\"1.0\" encoding=\"utf-8\"?>\n<!DOCTYPE html><html xmlns=\"http://www.w3.org/1999/xhtml\" xmlns:epub=\"http://www.idpf.org/2007/ops\">\n<head><title>目錄</title></head><body><nav epub:type=\"toc\"><h1>目錄</h1><ol>"
    ++ String.join tocLinks ++ "</ol></nav></body></html>"

/-- The rebuild loop and serialisation (`manga_processor.py:166-221`)
applied to the extracted image sequence. -/
def buildOutput (md : EpubMeta) (cfg : StyleConfig) (uuidHex : String)
    (images : List String) : RebuildOutput :=
  let n := images.length
  { pages := images.enum.map fun p =>
      (pageName p.1, pageContent p.1 (imgName p.1 (extOf p.2)))
    imgsOut := images.enum.map fun p => (imgName p.1 (extOf p.2), p.2)
    manifestItems := images.enum.flatMap fun p => [pageItem p.1, imgItem p.1 (extOf p.2)]
    spine := images.enum.map fun p => itemrefStr p.1
    tocLinks := images.enum.filterMap fun p =>
      if p.1 % cfg.pagesPerChapter = 0 then
        some (tocLinkStr p.1
          (cfg.chapterTemplate (p.1 + 1) (min (p.1 + cfg.pagesPerChapter) n)))
      else none
    opf := opfContentStr md.title md.creator uuidHex
      (if images.isEmpty then "" else "<meta name=\"cover\" content=\"i0\" />")
      (images.enum.flatMap fun p => [pageItem p.1, imgItem p.1 (extOf p.2)])
      (images.enum.map fun p => itemrefStr p.1)
    nav := navContentStr (images.enum.filterMap fun p =>
      if p.1 % cfg.pagesPerChapter = 0 then
        some (tocLinkStr p.1
          (cfg.chapterTemplate (p.1 + 1) (min (p.1 + cfg.pagesPerChapter) n)))
      else none) }

/-- `rebuild_manga_epub` (`manga_processor.py:129-237`), with the two
ElementTree parses abstracted: `parseRootfile` as in `getEpubInfo`, and
`parseOpf` standing for lines 58-67 (elements matched with the `{*}`
wildcard), returning the manifest item list (document order) and the
spine idref list, or `none` when parsing raises.  `uuidHex` stands for
`os.urandom(8).hex()`.  `none` models a `False` return: any exception
caught at line 232, or the zero-image failure at lines 152-154, or the
`ZeroDivisionError` when `pages_per_chapter` is `0`. -/
def rebuild (parseRootfile : String → Option String)
    (parseOpf : String → Option (List (String × String) × List String))
    (z : Archive) (cfg : StyleConfig) (uuidHex : String) : Option RebuildOutput :=
  match getEpubInfo parseRootfile z with
  | .error _ => none
  | .ok md =>
    match zipRead z md.opfPath with
    | none => none
    | some opfStr =>
      match parseOpf opfStr with
      | none => none
      | some (manifest, spineIds) =>
        let st := extractResult z manifest spineIds md.opfDir
        if st.images.isEmpty then none
        else if cfg.pagesPerChapter = 0 then none
        else some (buildOutput md cfg uuidHex st.images)

/-- The image sequence the rebuild pipeline extracts (empty when any
stage fails). -/
def pipelineImages (parseRootfile : String → Option String)
    (parseOpf : String → Option (List (String × String) × List String))
    (z : Archive) : List String :=
  match getEpubInfo parseRootfile z with
  | .error _ => []
  | .ok md =>
    match zipRead z md.opfPath with
    | none => []
    | some opfStr =>
      match parseOpf opfStr with
      | none => []
      | some (manifest, spineIds) =>
        (extractResult z manifest spineIds md.opfDir).images

/-! ## Working-directory lifecycle (`manga_processor.py:137-141,235-237`) -/

/-- The fixed relative name `temp_manga_extract` (line 137). -/
def tempExtractName : String := "temp_manga_extract"

/-- The fixed relative name `temp_manga_build` (line 138). -/
def tempBuildName : String := "temp_manga_build"

/-- `shutil.rmtree(d)` on a set of directories (named relative to the
current working directory). -/
def fsRemove (fs : List String) (d : String) : List String :=
  fs.filter fun x => x != d

/-- Lines 139-141: for each of the two fixed names, delete any existing
directory, then create it. -/
def entrySetup (fs : List String) : List String :=
  tempBuildName :: fsRemove (tempExtractName :: fsRemove fs tempExtractName) tempBuildName

/-- Lines 143-237: the `try/except/finally` around the abstract body.
`body` returns the directories existing afterwards plus `some b` for a
normal `return b` and `none` for a raised exception (caught at line 232,
yielding `False`); the `finally` removes both fixed directories in every
case. -/
def rebuildFS (body : List String → List String × Option Bool) (fs : List String) :
    List String × Bool :=
  let r := body (entrySetup fs)
  (fsRemove (fsRemove r.1 tempExtractName) tempBuildName, r.2.getD false)

/-! ## Concrete fixtures

Small archives used to evaluate the model at explicit inputs.  The two
parse oracles are instantiated with the values ElementTree produces on
the corresponding well-formed documents. -/

/-- A well-formed `META-INF/container.xml` pointing at `OEBPS/content.opf`. -/
def containerX : String :=
  "<?xml version=\"1.0\"?><container><rootfiles><rootfile full-path=\"OEBPS/content.opf\"/></rootfiles></container>"

/-- An OPF document with no `dc:title`/`dc:creator`. -/
def opfX : String := "<package><manifest/><spine/></package>"

/-- Rootfile oracle for `containerX`. -/
def prA : String → Option String :=
  fun s => if s = containerX then some "OEBPS/content.opf" else none

/-- OPF oracle: one manifest item `c1 -> Text/p1.xhtml`, spine `[c1]`. -/
def popfA : String → Option (List (String × String) × List String) :=
  fun s => if s = opfX then some ([("c1", "Text/p1.xhtml")], ["c1"]) else none

/-- OPF oracle: empty manifest and empty spine. -/
def popfE : String → Option (List (String × String) × List String) :=
  fun s => if s = opfX then some ([], []) else none

/-- A healthy one-page archive. -/
def zA : Archive :=
  [("META-INF/container.xml", containerX), ("OEBPS/content.opf", opfX),
   ("OEBPS/Text/p1.xhtml", "<img src=\"../Images/01.jpg\"/>"),
   ("OEBPS/Images/01.jpg", "IMG1")]

/-- The default style configuration (`pages_per_chapter = 20`, the
default chapter template, no CSS). -/
def cfgA : StyleConfig :=
  ⟨20, fun s e => "(" ++ natStr s ++ "-" ++ natStr e ++ "頁)", []⟩

/-- An archive with an empty spine whose only image-typed entry is
`page1.jpg`. -/
def zC1 : Archive :=
  [("META-INF/container.xml", containerX), ("OEBPS/content.opf", opfX),
   ("page1.jpg", "J")]

/-- Two-item manifest: a content document with no image reference
followed by one with an image reference. -/
def mC5 : List (String × String) :=
  [("c0", "Text/none.xhtml"), ("c2", "Text/p2.xhtml")]

/-- Archive for `mC5`. -/
def zC5 : Archive :=
  [("OEBPS/Text/none.xhtml", "<p>interstitial</p>"),
   ("OEBPS/Text/p2.xhtml", "<img src='../Images/01.jpg'/>"),
   ("OEBPS/Images/01.jpg", "B")]

/-- One-item manifest whose content document references
`../../../etc/x`, escaping above the archive root. -/
def mEsc : List (String × String) := [("c", "Text/p.xhtml")]

/-- Escaping reference, and the archive literally contains an entry
named `../etc/x`. -/
def zEscA : Archive :=
  [("OEBPS/Text/p.xhtml", "<img src='../../../etc/x'/>"), ("../etc/x", "B")]

/-- Escaping reference, no such entry. -/
def zEscB : Archive := [("OEBPS/Text/p.xhtml", "<img src='../../../etc/x'/>")]


/-- The metadata `get_epub_info` produces on `zA`. -/
def mdA : EpubMeta :=
  ⟨"Unknown Manga", "Unknown Author", "OEBPS/content.opf", "OEBPS"⟩

/-- The output `rebuild` produces on `zA` with identifier `ab`. -/
def outA : RebuildOutput := buildOutput mdA cfgA "ab" ["OEBPS/Images/01.jpg"]


/-- An archive with structure but neither metadata nor images. -/
def zC8 : Archive :=
  [("META-INF/container.xml", containerX), ("OEBPS/content.opf", opfX)]

/-- Does the path contain a `..` segment? -/
def hasDotDotSeg (s : String) : Bool :=
  (splitChar '/' s.data).any (· == dotdot)

/-- Case-insensitive occurrence test (any position). -/
def containsCI (pat : List Char) : List Char → Bool
  | [] => leadCI pat []
  | c :: cs => leadCI pat (c :: cs) || containsCI pat cs

/-- No `..` occurs among the parts. -/
def noDd (l : List (List Char)) : Bool := l.all (· ≠ dotdot)

/-- `..` parts occur only as a leading run. -/
def ddLeading : List (List Char) → Bool
  | [] => true
  | p :: ps => if p = dotdot then ddLeading ps else noDd ps

/-- The residual shape `posixpath.normpath` guarantees: either the
literal `.`, or a path whose non-empty slash-separated parts contain no
`.` and have `..` only as a leading run. -/
def residualOK (s : String) : Bool :=
  s == "." ||
    (let parts := (splitChar '/' s.data).filter (· ≠ ([] : List Char))
     parts.all (· ≠ ['.']) && ddLeading parts)

/-- Decimal value of a digit string (used to invert `decChars`). -/
def decValue (l : List Char) : Nat :=
  l.foldl (fun acc c => acc * 10 + (c.toNat - 48)) 0

/-! ## Theorems -/

/-! ### Decimal rendering is invertible -/

theorem toNat_ofNat_digit : ∀ d < 10, (Char.ofNat (48 + d)).toNat = 48 + d := by decide

theorem decValue_cons_zero (t : List Char) : decValue ('0' :: t) = decValue t := by
  have h : (0 : Nat) * 10 + ('0'.toNat - 48) = 0 := by decide
  simp only [decValue, List.foldl_cons, h]

theorem decValue_decChars_of_lt :
    ∀ (fuel n : Nat), n < fuel → decValue (decChars fuel n) = n := by
  intro fuel
  induction fuel with
  | zero => intro n h; omega
  | succ f ih =>
    intro n h
    by_cases h10 : n < 10
    · simp [decChars, h10, decValue, toNat_ofNat_digit n h10]
    · have hpos : 0 < n := by omega
      have hlt : n / 10 < n := Nat.div_lt_self hpos (by omega)
      have hf : n / 10 < f := by omega
      have hmod : (Char.ofNat (48 + n % 10)).toNat = 48 + n % 10 :=
        toNat_ofNat_digit _ (Nat.mod_lt _ (by omega))
      have hdm := Nat.div_add_mod n 10
      simp only [decChars, if_neg h10, decValue, List.foldl_append, List.foldl_cons,
        List.foldl_nil, hmod]
      have := ih (n / 10) hf
      simp only [decValue] at this
      rw [this]
      omega

theorem decValue_pad4 (n : Nat) : decValue ((pad4 n).data) = n := by
  have h1 : (pad4 n).data
      = List.replicate (4 - (decChars (n + 1) n).length) '0' ++ decChars (n + 1) n := rfl
  rw [h1]
  have h2 : ∀ k (l : List Char), decValue (List.replicate k '0' ++ l) = decValue l := by
    intro k
    induction k with
    | zero => intro l; rfl
    | succ m ih => intro l; rw [List.replicate_succ, List.cons_append, decValue_cons_zero, ih]
  rw [h2, decValue_decChars_of_lt _ _ (Nat.lt_succ_self n)]

theorem pad4_inj : Function.Injective pad4 := by
  intro a b h
  have := congrArg (fun s => decValue s.data) h
  simpa [decValue_pad4] using this

theorem pageName_inj : Function.Injective pageName := by
  intro a b h
  have h2 := congrArg String.data h
  simp only [pageName, String.data_append, List.append_assoc] at h2
  exact pad4_inj (String.ext (List.append_cancel_right (List.append_cancel_left h2)))

/-! ### Index-only `filterMap` over `enum` -/

theorem filterMap_enumFrom_fst {α β : Type _} (g : Nat → Option β) :
    ∀ (l : List α) (n : Nat),
      (List.enumFrom n l).filterMap (fun p => g p.1)
        = (List.range' n l.length).filterMap g := by
  intro l
  induction l with
  | nil => intro n; rfl
  | cons a t ih =>
    intro n
    show List.filterMap (fun p => g p.1) ((n, a) :: List.enumFrom (n + 1) t)
      = List.filterMap g (n :: List.range' (n + 1) t.length)
    rw [List.filterMap_cons, List.filterMap_cons]
    cases g n <;> simp [ih]

theorem filterMap_enum_fst {α β : Type _} (g : Nat → Option β) (l : List α) :
    l.enum.filterMap (fun p => g p.1) = (List.range l.length).filterMap g := by
  rw [show l.enum = List.enumFrom 0 l from rfl, filterMap_enumFrom_fst,
    List.range_eq_range']

/-- C1: an archive whose spine walk yields zero images, but which
contains an entry with a recognised image extension (`page1.jpg`): the
extractor only logs the fallback warning and returns the empty
sequence — no fallback extraction happens (the body is elided at
`manga_processor.py:125`) — and `rebuild_manga_epub` fails, while the
claim and spec §4.4 require the natural-order fallback to run and the
rebuild to succeed. -/
theorem c1_spine_empty_no_fallback :
    extractResult zC1 [] [] "OEBPS" = ⟨[], [.warnFallback]⟩
    ∧ (zipNamelist zC1).any (fun f => endsWithS f ".jpg") = true
    ∧ rebuild prA popfE zC1 cfgA "ab" = none := by
  refine ⟨by decide, by decide, by decide⟩

/-- C2 counterexample: with base directory `OEBPS/Text`, the reference
`../../../etc/x` (which escapes the archive root) resolves to
`../etc/x` — a path that still contains a `..` segment — and an
absolute reference keeps its leading slash; both contradict the claim
that the result has no `.`/`..` segments and no leading slash. -/
theorem c2_resolution_counterexample :
    resolveImgPath "OEBPS/Text" "../../../etc/x" = "../etc/x"
    ∧ hasDotDotSeg "../etc/x" = true
    ∧ resolveImgPath "OEBPS/Text" "/Images/x.jpg" = "/Images/x.jpg" := by
  refine ⟨by decide, by decide, by decide⟩

/-- C5 counterexample: spine `[c0, c2]` where `c0` is a readable
content document with no image reference.  The claim says such a
document is "skipped with a warning", but the loop has no `else` for a
failed image match (`manga_processor.py:90`): extraction completes with
`c2`'s image and an empty log — no warning was emitted for `c0`. -/
theorem c5_per_item_counterexample :
    extractResult zC5 mC5 ["c0", "c2"] "OEBPS"
      = ⟨["OEBPS/Images/01.jpg"], []⟩
    ∧ dictLookup mC5 "c0" = some "Text/none.xhtml"
    ∧ zipRead zC5 "OEBPS/Text/none.xhtml" = some "<p>interstitial</p>"
    ∧ findImgSrc "<p>interstitial</p>" = none := by
  refine ⟨by decide, by decide, by decide, by decide⟩

/-- C7 counterexample: the title pattern hard-codes the `dc:` prefix
(`manga_processor.py:39`), so a package document using any other
namespace prefix on its title element falls back to the placeholder,
while the same document with the `dc:` prefix is extracted — the claim
that the search accepts "any XML namespace prefix" is false. -/
theorem c7_metadata_counterexample :
    extractTitle "<ns:title>Real Title</ns:title>" = "Unknown Manga"
    ∧ extractTitle "<dc:title>Real Title</dc:title>" = "Real Title"
    ∧ "Unknown Manga" ≠ "Real Title" := by
  refine ⟨by decide, by decide, by decide⟩


/-! ### Destructuring the rebuild pipeline -/

theorem pipelineImages_eq {pr : String → Option String}
    {popf : String → Option (List (String × String) × List String)}
    {z : Archive} {md : EpubMeta} {opfStr : String}
    {m : List (String × String)} {ids : List String}
    (hmd : getEpubInfo pr z = .ok md) (hop : zipRead z md.opfPath = some opfStr)
    (hpo : popf opfStr = some (m, ids)) :
    pipelineImages pr popf z = (extractResult z m ids md.opfDir).images := by
  unfold pipelineImages
  simp only [hmd, hop, hpo]

theorem rebuild_eq_buildOutput {pr : String → Option String}
    {popf : String → Option (List (String × String) × List String)}
    {z : Archive} {cfg : StyleConfig} {u : String} {out : RebuildOutput} :
    rebuild pr popf z cfg u = some out →
    ∃ md opfStr m ids,
      getEpubInfo pr z = .ok md
      ∧ zipRead z md.opfPath = some opfStr
      ∧ popf opfStr = some (m, ids)
      ∧ (extractResult z m ids md.opfDir).images ≠ []
      ∧ cfg.pagesPerChapter ≠ 0
      ∧ out = buildOutput md cfg u ((extractResult z m ids md.opfDir).images) := by
  intro h
  unfold rebuild at h
  cases hmd : getEpubInfo pr z with
  | error e => simp only [hmd] at h; exact absurd h (by simp)
  | ok md =>
    simp only [hmd] at h
    cases hop : zipRead z md.opfPath with
    | none => simp only [hop] at h; exact absurd h (by simp)
    | some opfStr =>
      simp only [hop] at h
      cases hpo : popf opfStr with
      | none => simp only [hpo] at h; exact absurd h (by simp)
      | some ms =>
        obtain ⟨m, ids⟩ := ms
        simp only [hpo] at h
        by_cases he : (extractResult z m ids md.opfDir).images.isEmpty
        · rw [if_pos he] at h; exact absurd h (by simp)
        · rw [if_neg he] at h
          by_cases hp : cfg.pagesPerChapter = 0
          · rw [if_pos hp] at h; exact absurd h (by simp)
          · rw [if_neg hp] at h
            exact ⟨md, opfStr, m, ids, rfl, hop, hpo,
              by simpa [List.isEmpty_iff] using he, hp,
              (Option.some.injEq _ _ ▸ h).symm⟩

theorem rebuild_eq_some_of {pr : String → Option String}
    {popf : String → Option (List (String × String) × List String)}
    {z : Archive} {cfg : StyleConfig} {md : EpubMeta} {opfStr : String}
    {m : List (String × String)} {ids : List String} (u : String)
    (hmd : getEpubInfo pr z = .ok md) (hop : zipRead z md.opfPath = some opfStr)
    (hpo : popf opfStr = some (m, ids))
    (hne : (extractResult z m ids md.opfDir).images ≠ [])
    (hp : cfg.pagesPerChapter ≠ 0) :
    rebuild pr popf z cfg u
      = some (buildOutput md cfg u ((extractResult z m ids md.opfDir).images)) := by
  have he : ¬ ((extractResult z m ids md.opfDir).images.isEmpty = true) := by
    simpa [List.isEmpty_iff] using hne
  unfold rebuild
  simp only [hmd, hop, hpo]
  rw [if_neg he, if_neg hp]

theorem buildOutput_pages_length (md : EpubMeta) (cfg : StyleConfig) (u : String)
    (imgs : List String) : (buildOutput md cfg u imgs).pages.length = imgs.length := by
  simp [buildOutput, List.enum_length]

theorem buildOutput_page_names (md : EpubMeta) (cfg : StyleConfig) (u : String)
    (imgs : List String) :
    (buildOutput md cfg u imgs).pages.map Prod.fst
      = (List.range imgs.length).map pageName := by
  show (imgs.enum.map fun p =>
      (pageName p.1, pageContent p.1 (imgName p.1 (extOf p.2)))).map Prod.fst
    = (List.range imgs.length).map pageName
  rw [List.map_map, ← List.enum_map_fst imgs, List.map_map]
  rfl

theorem buildOutput_spine (md : EpubMeta) (cfg : StyleConfig) (u : String)
    (imgs : List String) :
    (buildOutput md cfg u imgs).spine = (List.range imgs.length).map itemrefStr := by
  show (imgs.enum.map fun p => itemrefStr p.1) = (List.range imgs.length).map itemrefStr
  rw [← List.enum_map_fst imgs, List.map_map]
  rfl

theorem buildOutput_pages_idx (md : EpubMeta) (cfg : StyleConfig) (u : String)
    (imgs : List String) (i : Nat) (s : String) (hs : imgs[i]? = some s) :
    (buildOutput md cfg u imgs).pages[i]?
      = some (pageName i, pageContent i (imgName i (extOf s))) := by
  show (imgs.enum.map fun p =>
      (pageName p.1, pageContent p.1 (imgName p.1 (extOf p.2))))[i]? = _
  rw [List.getElem?_map, List.getElem?_enum, hs]
  rfl


/-- C3: whenever the rebuild succeeds, the output contains exactly one
page document per extracted image (page names are pairwise distinct),
the output spine lists the pages in extraction order, and the page at
spine position `i` references the image at extraction index `i`
(`manga_processor.py:169-185,207-213`). -/
theorem c3_pages_match_extraction :
    ∀ (pr : String → Option String)
      (popf : String → Option (List (String × String) × List String))
      (z : Archive) (cfg : StyleConfig) (u : String) (out : RebuildOutput),
      rebuild pr popf z cfg u = some out →
      out.pages.length = (pipelineImages pr popf z).length
      ∧ (out.pages.map Prod.fst).Nodup
      ∧ out.spine = (List.range (pipelineImages pr popf z).length).map itemrefStr
      ∧ ∀ i s, (pipelineImages pr popf z)[i]? = some s →
          out.pages[i]? = some (pageName i, pageContent i (imgName i (extOf s)))
          ∧ out.spine[i]? = some (itemrefStr i) := by
  intro pr popf z cfg u out h
  obtain ⟨md, opfStr, m, ids, hmd, hop, hpo, hne, hppc, hout⟩ := rebuild_eq_buildOutput h
  have hpi := pipelineImages_eq hmd hop hpo
  rw [hpi]
  subst hout
  refine ⟨buildOutput_pages_length md cfg u _, ?_, buildOutput_spine md cfg u _, ?_⟩
  · rw [buildOutput_page_names]
    exact List.Nodup.map pageName_inj (List.nodup_range _)
  · intro i s hs
    refine ⟨buildOutput_pages_idx md cfg u _ i s hs, ?_⟩
    have hi := (List.getElem?_eq_some.mp hs).1
    rw [buildOutput_spine, List.getElem?_map, List.getElem?_range hi]
    rfl

set_option maxRecDepth 10000 in
/-- Witness for C3 at the one-page fixture. -/
theorem c3_pages_match_extraction_witness :
    outA.pages.length = (pipelineImages prA popfA zA).length
    ∧ outA.spine[0]? = some (itemrefStr 0) := by
  have h := c3_pages_match_extraction prA popfA zA cfgA "ab" outA (by decide)
  exact ⟨h.1, (h.2.2.2 0 "OEBPS/Images/01.jpg" (by decide)).2⟩

/-- C9: the rebuild is deterministic apart from the generated unique
identifier (`os.urandom(8).hex()`, modelled by the `uuidHex` argument):
two runs on the same archive and style configuration succeed or fail
together, and on success produce the same spine, the same navigation
entries, and the same page count. -/
theorem c9_deterministic_rebuild :
    ∀ (pr : String → Option String)
      (popf : String → Option (List (String × String) × List String))
      (z : Archive) (cfg : StyleConfig) (u1 u2 : String),
      (rebuild pr popf z cfg u1).isSome = (rebuild pr popf z cfg u2).isSome
      ∧ ∀ o1 o2, rebuild pr popf z cfg u1 = some o1 →
          rebuild pr popf z cfg u2 = some o2 →
          o1.spine = o2.spine ∧ o1.tocLinks = o2.tocLinks
            ∧ o1.pages.length = o2.pages.length := by
  intro pr popf z cfg u1 u2
  constructor
  · cases h1 : rebuild pr popf z cfg u1 with
    | some o1 =>
      obtain ⟨md, opfStr, m, ids, hmd, hop, hpo, hne, hp, _⟩ := rebuild_eq_buildOutput h1
      rw [rebuild_eq_some_of u2 hmd hop hpo hne hp]
      rfl
    | none =>
      cases h2 : rebuild pr popf z cfg u2 with
      | none => rfl
      | some o2 =>
        obtain ⟨md, opfStr, m, ids, hmd, hop, hpo, hne, hp, _⟩ := rebuild_eq_buildOutput h2
        rw [rebuild_eq_some_of u1 hmd hop hpo hne hp] at h1
        exact absurd h1 (by simp)
  · intro o1 o2 h1 h2
    obtain ⟨md1, opfStr1, m1, ids1, hmd1, hop1, hpo1, _, _, ho1⟩ := rebuild_eq_buildOutput h1
    obtain ⟨md2, opfStr2, m2, ids2, hmd2, hop2, hpo2, _, _, ho2⟩ := rebuild_eq_buildOutput h2
    rw [hmd1] at hmd2
    have hmd : md1 = md2 := Except.ok.inj hmd2
    subst hmd
    rw [hop1] at hop2
    have hopf : opfStr1 = opfStr2 := Option.some.inj hop2
    subst hopf
    rw [hpo1] at hpo2
    have hpair := Option.some.inj hpo2
    have hm : m1 = m2 := congrArg Prod.fst hpair
    have hi : ids1 = ids2 := congrArg Prod.snd hpair
    subst hm hi ho1 ho2
    exact ⟨rfl, rfl, rfl⟩

set_option maxRecDepth 10000 in
/-- Witness for C9 at the one-page fixture with two identifiers. -/
theorem c9_deterministic_rebuild_witness :
    outA.spine = (buildOutput mdA cfgA "cd" ["OEBPS/Images/01.jpg"]).spine :=
  (((c9_deterministic_rebuild prA popfA zA cfgA "ab" "cd").2 outA
    (buildOutput mdA cfgA "cd" ["OEBPS/Images/01.jpg"]) (by decide) (by decide))).1

/-- C4: for every non-empty image sequence and `pagesPerChapter ≥ 1`,
the rebuild loop (`manga_processor.py:187-192`) creates a navigation
entry exactly at each 0-based index `i` with `i % pagesPerChapter = 0`,
labelled with `start = i + 1` and `end = min (i + pagesPerChapter) N`;
with 45 images and 20 pages per chapter this yields exactly the three
entries (1-20), (21-40), (41-45), the last clamped. -/
theorem c4_chapter_boundaries :
    (∀ (md : EpubMeta) (cfg : StyleConfig) (u : String) (images : List String),
      1 ≤ cfg.pagesPerChapter → images ≠ [] →
      (buildOutput md cfg u images).tocLinks
        = (List.range images.length).filterMap fun i =>
            if i % cfg.pagesPerChapter = 0 then
              some (tocLinkStr i (cfg.chapterTemplate (i + 1)
                (min (i + cfg.pagesPerChapter) images.length)))
            else none)
    ∧ (buildOutput ⟨"T", "C", "p", "d"⟩ cfgA "ab" (List.replicate 45 "x.jpg")).tocLinks
        = ["<li><a href=\"page_0000.xhtml\">(1-20頁)</a></li>",
           "<li><a href=\"page_0020.xhtml\">(21-40頁)</a></li>",
           "<li><a href=\"page_0040.xhtml\">(41-45頁)</a></li>"] := by
  constructor
  · intro md cfg u images _ _
    show images.enum.filterMap (fun p =>
        if p.1 % cfg.pagesPerChapter = 0 then
          some (tocLinkStr p.1 (cfg.chapterTemplate (p.1 + 1)
            (min (p.1 + cfg.pagesPerChapter) images.length)))
        else none) = _
    exact filterMap_enum_fst (fun i =>
      if i % cfg.pagesPerChapter = 0 then
        some (tocLinkStr i (cfg.chapterTemplate (i + 1)
          (min (i + cfg.pagesPerChapter) images.length)))
      else none) images
  · decide

/-- Witness for C4 at two images with the default configuration. -/
theorem c4_chapter_boundaries_witness :
    (buildOutput ⟨"T", "C", "p", "d"⟩ cfgA "ab" ["a.jpg", "b.jpg"]).tocLinks
      = (List.range (["a.jpg", "b.jpg"] : List String).length).filterMap fun i =>
          if i % cfgA.pagesPerChapter = 0 then
            some (tocLinkStr i (cfgA.chapterTemplate (i + 1)
              (min (i + cfgA.pagesPerChapter) (["a.jpg", "b.jpg"] : List String).length)))
          else none :=
  c4_chapter_boundaries.1 ⟨"T", "C", "p", "d"⟩ cfgA "ab" ["a.jpg", "b.jpg"]
    (by decide) (by decide)

/-- C6: `get_epub_info` fails with the structure error
(`FileNotFoundError`, line 31) exactly when tier 1 (reading and parsing
`META-INF/container.xml`) fails AND no archive entry name ends in
`.opf`; and whenever tier 1 fails, the resolved OPF path is the first
entry ending in `.opf`. -/
theorem c6_two_tier_fallback :
    ∀ (pr : String → Option String) (z : Archive),
      (getEpubInfo pr z = .error .structureError ↔
        ((zipRead z "META-INF/container.xml").bind pr = none
          ∧ (zipNamelist z).find? (fun f => endsWithS f ".opf") = none))
      ∧ ((zipRead z "META-INF/container.xml").bind pr = none →
          findOpfPath pr z = (zipNamelist z).find? fun f => endsWithS f ".opf") := by
  intro pr z
  refine ⟨?_, ?_⟩
  · unfold getEpubInfo findOpfPath
    cases h : (zipRead z "META-INF/container.xml").bind pr with
    | some p =>
      simp only [h]
      cases h2 : zipRead z p with
      | none => simp
      | some o => simp
    | none =>
      simp only [h]
      cases h2 : (zipNamelist z).find? (fun f => endsWithS f ".opf") with
      | none => simp
      | some p =>
        simp only [h2]
        cases h3 : zipRead z p with
        | none => simp
        | some o => simp
  · intro h
    unfold findOpfPath
    rw [h]

/-- Witness for C6: an archive with no `META-INF/container.xml` whose
only `.opf`-suffixed entry is `inner/pkg.opf`. -/
theorem c6_two_tier_fallback_witness :
    findOpfPath (fun _ => none) [("x.txt", "a"), ("inner/pkg.opf", "b")]
      = some "inner/pkg.opf" :=
  ((c6_two_tier_fallback (fun _ => none) [("x.txt", "a"), ("inner/pkg.opf", "b")]).2
    (by decide)).trans (by decide)

/-- C10: the rebuild always uses the two fixed relative working
directory names; at entry (lines 137-141) any pre-existing directory
with either name is deleted and both are freshly created, with every
other directory untouched; and on return (the `finally` at lines
235-237) both are removed again, on the success and on the failure
path alike, everything else surviving. -/
theorem c10_tempdir_lifecycle :
    ∀ (body : List String → List String × Option Bool) (fs : List String),
      tempExtractName = "temp_manga_extract"
      ∧ tempBuildName = "temp_manga_build"
      ∧ tempExtractName ∈ entrySetup fs
      ∧ tempBuildName ∈ entrySetup fs
      ∧ (∀ x, x ≠ tempExtractName → x ≠ tempBuildName →
          (x ∈ entrySetup fs ↔ x ∈ fs))
      ∧ tempExtractName ∉ (rebuildFS body fs).1
      ∧ tempBuildName ∉ (rebuildFS body fs).1
      ∧ (∀ x, x ∈ (rebuildFS body fs).1 ↔
          x ∈ (body (entrySetup fs)).1 ∧ x ≠ tempExtractName ∧ x ≠ tempBuildName)
      ∧ (rebuildFS body fs).2 = (body (entrySetup fs)).2.getD false := by
  intro body fs
  refine ⟨rfl, rfl, ?_, ?_, ?_, ?_, ?_, ?_, rfl⟩
  · have hne : tempExtractName ≠ tempBuildName := by decide
    simp [entrySetup, fsRemove, List.mem_filter, hne]
  · simp [entrySetup]
  · intro x hx1 hx2
    simp [entrySetup, fsRemove, List.mem_filter, hx1, hx2]
  · simp [rebuildFS, fsRemove, List.mem_filter]
  · simp [rebuildFS, fsRemove, List.mem_filter]
  · intro x
    simp only [rebuildFS, fsRemove, List.mem_filter, bne_iff_ne, ne_eq, and_assoc]

/-- Witness for C10: a pre-existing unrelated directory survives setup,
and the extract directory is gone after a successful run. -/
theorem c10_tempdir_lifecycle_witness :
    "keep" ∈ entrySetup ["keep", "temp_manga_extract"]
    ∧ tempExtractName ∉
        (rebuildFS (fun fs => (fs, some true)) ["keep", "temp_manga_extract"]).1 := by
  have h := c10_tempdir_lifecycle (fun fs => (fs, some true)) ["keep", "temp_manga_extract"]
  exact ⟨(h.2.2.2.2.1 "keep" (by decide) (by decide)).mpr (by decide),
    h.2.2.2.2.2.1⟩

/-- C5 (amended): per-item behaviour of the spine loop — an id absent
from the manifest is skipped silently; an unreadable content document
is skipped with the line-119 warning; a content document with no image
reference is skipped silently; an unreadable image entry is skipped
with the line-116 warning; a readable image is appended.  And, the
earlier pipeline stages succeeding, the rebuild fails exactly when the
extracted sequence is empty. -/
theorem c5_per_item_amended :
    (∀ (z : Archive) (manifest : List (String × String)) (opfDir : String)
       (st : ExtState) (itemId : String),
      (dictLookup manifest itemId = none → extractStep z manifest opfDir st itemId = st)
      ∧ (∀ href, dictLookup manifest itemId = some href →
          (zipRead z (stepHtmlPath opfDir href) = none →
            extractStep z manifest opfDir st itemId
              = { st with log := st.log ++ [.warnChapterFail (stepHtmlPath opfDir href)] })
          ∧ (∀ html, zipRead z (stepHtmlPath opfDir href) = some html →
              (findImgSrc html = none → extractStep z manifest opfDir st itemId = st)
              ∧ (∀ src, findImgSrc html = some src →
                  (zipRead z (resolveImgPath (posixDirname (stepHtmlPath opfDir href)) src)
                      = none →
                    extractStep z manifest opfDir st itemId
                      = { st with log := st.log ++ [.warnMissingImage
                          (resolveImgPath (posixDirname (stepHtmlPath opfDir href)) src)] })
                  ∧ (∀ b, zipRead z (resolveImgPath (posixDirname (stepHtmlPath opfDir href)) src)
                        = some b →
                      extractStep z manifest opfDir st itemId
                        = { st with images := st.images ++ [resolveImgPath
                            (posixDirname (stepHtmlPath opfDir href)) src] })))))
    ∧ (∀ (pr : String → Option String)
         (popf : String → Option (List (String × String) × List String))
         (z : Archive) (cfg : StyleConfig) (u : String) (md : EpubMeta)
         (opfStr : String) (m : List (String × String)) (ids : List String),
        getEpubInfo pr z = .ok md → zipRead z md.opfPath = some opfStr →
        popf opfStr = some (m, ids) → cfg.pagesPerChapter ≠ 0 →
        (rebuild pr popf z cfg u = none
          ↔ (extractResult z m ids md.opfDir).images = [])) := by
  constructor
  · intro z manifest opfDir st itemId
    constructor
    · intro h
      unfold extractStep
      simp only [h]
    · intro href h
      refine ⟨?_, ?_⟩
      · intro h2
        unfold extractStep
        simp only [h, h2]
      · intro html h2
        refine ⟨?_, ?_⟩
        · intro h3
          unfold extractStep
          simp only [h, h2, h3]
        · intro src h3
          refine ⟨?_, ?_⟩
          · intro h4
            unfold extractStep
            simp only [h, h2, h3, h4]
          · intro b h4
            unfold extractStep
            simp only [h, h2, h3, h4]
  · intro pr popf z cfg u md opfStr m ids hmd hop hpo hp
    unfold rebuild
    simp only [hmd, hop, hpo]
    by_cases he : (extractResult z m ids md.opfDir).images.isEmpty
    · have he2 : (extractResult z m ids md.opfDir).images = [] := by
        simpa [List.isEmpty_iff] using he
      simp [he, he2]
    · have he2 : (extractResult z m ids md.opfDir).images ≠ [] := by
        simpa [List.isEmpty_iff] using he
      simp [he, hp, he2]

/-- Witness for C5 (amended): a manifest miss leaves the state
untouched, and on the empty-spine fixture the rebuild fails exactly
because extraction is empty. -/
theorem c5_per_item_amended_witness :
    extractStep zC5 mC5 "OEBPS" ⟨[], []⟩ "missing" = ⟨[], []⟩
    ∧ (rebuild prA popfE zC1 cfgA "ab" = none
        ↔ (extractResult zC1 [] [] "OEBPS").images = []) := by
  refine ⟨(c5_per_item_amended.1 zC5 mC5 "OEBPS" ⟨[], []⟩ "missing").1 (by decide),
    c5_per_item_amended.2 prA popfE zC1 cfgA "ab" mdA opfX [] []
      (by rfl) (by decide) (by decide) (by decide)⟩

/-! ### Shape of `posixpath.normpath` output -/

theorem noDd_of_not_mem {b : List (List Char)} (hb : dotdot ∉ b) : noDd b = true := by
  simp only [noDd, List.all_eq_true, decide_eq_true_eq]
  intro x hx
  exact fun h => hb (h ▸ hx)

theorem ddLeading_of_noDd : ∀ {b : List (List Char)}, noDd b = true → ddLeading b = true := by
  intro b hb
  cases b with
  | nil => rfl
  | cons p ps =>
    simp only [noDd, List.all_cons, Bool.and_eq_true, decide_eq_true_eq] at hb
    simp only [ddLeading, if_neg hb.1]
    exact hb.2

theorem ddLeading_build :
    ∀ (d : Nat) (b : List (List Char)), dotdot ∉ b →
      ddLeading (List.replicate d dotdot ++ b) = true := by
  intro d
  induction d with
  | zero =>
    intro b hb
    simpa using ddLeading_of_noDd (noDd_of_not_mem hb)
  | succ n ih =>
    intro b hb
    simp only [List.replicate_succ, List.cons_append, ddLeading, if_pos rfl]
    exact ih b hb

theorem normSegs_cons_eq (abs : Bool) (acc : List (List Char)) (c : List Char)
    (cs : List (List Char)) :
    normSegs abs acc (c :: cs)
      = if c = [] ∨ c = ['.'] then normSegs abs acc cs
        else if c ≠ dotdot then normSegs abs (c :: acc) cs
        else match acc with
          | [] => if abs then normSegs abs [] cs else normSegs abs [dotdot] cs
          | h :: t => if h = dotdot then normSegs abs (c :: h :: t) cs
                      else normSegs abs t cs := rfl

theorem normSegs_dd_nil (abs : Bool) (cs : List (List Char)) :
    normSegs abs [] (dotdot :: cs)
      = if abs then normSegs abs [] cs else normSegs abs [dotdot] cs := rfl

theorem normSegs_dd_cons (abs : Bool) (h : List Char) (t cs : List (List Char)) :
    normSegs abs (h :: t) (dotdot :: cs)
      = if h = dotdot then normSegs abs (dotdot :: h :: t) cs
        else normSegs abs t cs := rfl

theorem normSegs_shape :
    ∀ (comps : List (List Char)) (abs : Bool) (acc : List (List Char)),
      (∀ s ∈ acc, s ≠ [] ∧ s ≠ ['.'] ∧ '/' ∉ s) →
      (∃ a d, acc = a ++ List.replicate d dotdot ∧ dotdot ∉ a) →
      (∀ s ∈ comps, '/' ∉ s) →
      (∀ s ∈ normSegs abs acc comps, s ≠ [] ∧ s ≠ ['.'] ∧ '/' ∉ s)
      ∧ ddLeading (normSegs abs acc comps) = true := by
  intro comps
  induction comps with
  | nil =>
    intro abs acc hmem hinv _
    obtain ⟨a, d, ha, hnd⟩ := hinv
    constructor
    · intro s hs
      exact hmem s (List.mem_reverse.mp hs)
    · show ddLeading acc.reverse = true
      rw [ha, List.reverse_append, List.reverse_replicate]
      exact ddLeading_build d a.reverse (fun h => hnd (List.mem_reverse.mp h))
  | cons c cs ih =>
    intro abs acc hmem hinv hcomps
    have hcs : ∀ s ∈ cs, '/' ∉ s := fun s hs => hcomps s (List.mem_cons_of_mem c hs)
    have hc : '/' ∉ c := hcomps c (List.mem_cons_self c cs)
    by_cases h1 : c = [] ∨ c = ['.']
    · rw [normSegs_cons_eq, if_pos h1]
      exact ih abs acc hmem hinv hcs
    · by_cases h2 : c ≠ dotdot
      · rw [normSegs_cons_eq, if_neg h1, if_pos h2]
        push_neg at h1
        refine ih abs (c :: acc) ?_ ?_ hcs
        · intro s hs
          rcases List.mem_cons.mp hs with h | h
          · exact h ▸ ⟨h1.1, h1.2, hc⟩
          · exact hmem s h
        · obtain ⟨a, d, ha, hnd⟩ := hinv
          refine ⟨c :: a, d, by rw [ha, List.cons_append], ?_⟩
          intro h
          rcases List.mem_cons.mp h with h | h
          · exact h2 h.symm
          · exact hnd h
      · push_neg at h2
        subst h2
        obtain ⟨a, d, ha, hnd⟩ := hinv
        have hddOk : (dotdot : List Char) ≠ [] ∧ (dotdot : List Char) ≠ ['.']
            ∧ '/' ∉ (dotdot : List Char) := by
          refine ⟨by simp [dotdot], by simp [dotdot], by simp [dotdot]⟩
        cases acc with
        | nil =>
          rw [normSegs_dd_nil]
          cases abs with
          | true =>
            rw [if_pos rfl]
            exact ih true [] (by simp) ⟨[], 0, rfl, by simp⟩ hcs
          | false =>
            rw [if_neg (by simp)]
            refine ih false [dotdot] ?_ ⟨[], 1, rfl, by simp⟩ hcs
            intro s hs
            simp only [List.mem_singleton] at hs
            subst hs
            exact hddOk
        | cons h t =>
          by_cases h3 : h = dotdot
          · rw [normSegs_dd_cons, if_pos h3]
            subst h3
            have ha0 : a = [] := by
              cases a with
              | nil => rfl
              | cons x xs =>
                exfalso
                simp only [List.cons_append, List.cons.injEq] at ha
                exact hnd (ha.1 ▸ List.mem_cons_self x xs)
            subst ha0
            simp only [List.nil_append] at ha
            refine ih abs (dotdot :: dotdot :: t) ?_ ⟨[], d + 1, ?_, by simp⟩ hcs
            · intro s hs
              rcases List.mem_cons.mp hs with h4 | h4
              · subst h4; exact hddOk
              · exact hmem s h4
            · rw [List.nil_append, ha, ← List.replicate_succ]
          · rw [normSegs_dd_cons, if_neg h3]
            have hane : a ≠ [] := by
              intro h4
              subst h4
              simp only [List.nil_append] at ha
              cases d with
              | zero => simp at ha
              | succ n =>
                rw [List.replicate_succ] at ha
                exact h3 (List.cons.inj ha).1
            obtain ⟨x, a2, hx⟩ := List.exists_cons_of_ne_nil hane
            subst hx
            simp only [List.cons_append, List.cons.injEq] at ha
            refine ih abs t (fun s hs => hmem s (List.mem_cons_of_mem h hs))
              ⟨a2, d, ha.2, fun h4 => hnd (List.mem_cons_of_mem x h4)⟩ hcs


theorem splitChar_cons_eq (sep c : Char) (cs : List Char) :
    splitChar sep (c :: cs)
      = if c == sep then [] :: splitChar sep cs
        else match splitChar sep cs with
          | h :: t => (c :: h) :: t
          | [] => [[c]] := rfl

theorem splitChar_ne_nil (sep : Char) : ∀ (l : List Char), splitChar sep l ≠ [] := by
  intro l
  cases l with
  | nil => simp [splitChar]
  | cons c cs =>
    rw [splitChar_cons_eq]
    by_cases h : c == sep
    · simp [h]
    · rw [if_neg h]
      cases hs : splitChar sep cs with
      | nil => simp
      | cons a t => simp

theorem splitChar_no_sep (sep : Char) :
    ∀ (l : List Char), ∀ p ∈ splitChar sep l, sep ∉ p := by
  intro l
  induction l with
  | nil =>
    intro p hp
    simp only [splitChar, List.mem_singleton] at hp
    subst hp
    exact List.not_mem_nil sep
  | cons c cs ih =>
    intro p hp
    rw [splitChar_cons_eq] at hp
    by_cases h : c == sep
    · rw [if_pos h] at hp
      rcases List.mem_cons.mp hp with h2 | h2
      · subst h2; exact List.not_mem_nil sep
      · exact ih p h2
    · rw [if_neg h] at hp
      cases hs : splitChar sep cs with
      | nil => exact absurd hs (splitChar_ne_nil sep cs)
      | cons a t =>
        rw [hs] at hp
        rcases List.mem_cons.mp hp with h2 | h2
        · subst h2
          intro hmem
          rcases List.mem_cons.mp hmem with h3 | h3
          · simp only [beq_iff_eq] at h
            exact h h3.symm
          · exact ih a (hs ▸ List.mem_cons_self a t) h3
        · exact ih p (hs ▸ List.mem_cons_of_mem a h2)

theorem splitChar_of_no_sep (sep : Char) :
    ∀ (s : List Char), sep ∉ s → splitChar sep s = [s] := by
  intro s
  induction s with
  | nil => intro _; rfl
  | cons c cs ih =>
    intro h
    have hc : ¬ (c == sep) := by
      simp only [beq_iff_eq]
      exact fun h2 => h (h2 ▸ List.mem_cons_self c cs)
    rw [splitChar_cons_eq, if_neg hc, ih (fun h2 => h (List.mem_cons_of_mem c h2))]

theorem splitChar_append_sep (sep : Char) :
    ∀ (s t : List Char), sep ∉ s →
      splitChar sep (s ++ sep :: t) = s :: splitChar sep t := by
  intro s
  induction s with
  | nil =>
    intro t _
    show splitChar sep (sep :: t) = [] :: splitChar sep t
    rw [splitChar_cons_eq, if_pos (by simp)]
  | cons c cs ih =>
    intro t h
    have hc : ¬ (c == sep) := by
      simp only [beq_iff_eq]
      exact fun h2 => h (h2 ▸ List.mem_cons_self c cs)
    show splitChar sep (c :: (cs ++ sep :: t)) = (c :: cs) :: splitChar sep t
    rw [splitChar_cons_eq, if_neg hc, ih t (fun h2 => h (List.mem_cons_of_mem c h2))]

theorem splitChar_joinSegs :
    ∀ (segs : List (List Char)), segs ≠ [] → (∀ s ∈ segs, '/' ∉ s) →
      splitChar '/' (joinSegs segs) = segs := by
  intro segs
  induction segs with
  | nil => intro h _; exact absurd rfl h
  | cons s ss ih =>
    intro _ hmem
    cases ss with
    | nil =>
      show splitChar '/' s = [s]
      exact splitChar_of_no_sep '/' s (hmem s (List.mem_cons_self s []))
    | cons s2 ss2 =>
      show splitChar '/' (s ++ '/' :: joinSegs (s2 :: ss2)) = s :: s2 :: ss2
      rw [splitChar_append_sep '/' s _ (hmem s (List.mem_cons_self s _)),
        ih (by simp) (fun x hx => hmem x (List.mem_cons_of_mem s hx))]

theorem splitChar_replicate (sep : Char) :
    ∀ (k : Nat) (t : List Char),
      splitChar sep (List.replicate k sep ++ t)
        = List.replicate k [] ++ splitChar sep t := by
  intro k
  induction k with
  | zero => intro t; rfl
  | succ n ih =>
    intro t
    rw [List.replicate_succ, List.cons_append, List.replicate_succ, List.cons_append,
      splitChar_cons_eq, if_pos (by simp), ih]

theorem residualOK_of_parts {s : String}
    (h : ((((splitChar '/' s.data).filter (· ≠ ([] : List Char))).all (· ≠ ['.']))
      && ddLeading ((splitChar '/' s.data).filter (· ≠ ([] : List Char)))) = true) :
    residualOK s = true := by
  unfold residualOK
  show ((s == ".")
    || ((((splitChar '/' s.data).filter (· ≠ ([] : List Char))).all (· ≠ ['.']))
      && ddLeading ((splitChar '/' s.data).filter (· ≠ ([] : List Char))))) = true
  rw [h, Bool.or_true]

theorem normRender_residual (k : Nat) (segs : List (List Char))
    (h1 : ∀ s ∈ segs, s ≠ [] ∧ s ≠ ['.'] ∧ '/' ∉ s)
    (h2 : ddLeading segs = true) :
    residualOK (normRender k segs) = true := by
  unfold normRender
  by_cases hb : List.replicate k '/' ++ joinSegs segs = []
  · rw [if_pos hb]; decide
  · rw [if_neg hb]
    apply residualOK_of_parts
    have hrep : (List.replicate k ([] : List Char)).filter (· ≠ ([] : List Char)) = [] := by
      induction k with
      | zero => rfl
      | succ n ih => rw [List.replicate_succ, List.filter_cons]; simpa using ih
    rw [show (String.mk (List.replicate k '/' ++ joinSegs segs)).data
        = List.replicate k '/' ++ joinSegs segs from rfl, splitChar_replicate,
      List.filter_append, hrep, List.nil_append]
    cases hsegs : segs with
    | nil => rfl
    | cons s ss =>
      rw [← hsegs, splitChar_joinSegs segs (by rw [hsegs]; simp)
        (fun x hx => (h1 x hx).2.2)]
      have hfil : segs.filter (· ≠ ([] : List Char)) = segs := by
        apply List.filter_eq_self.mpr
        intro a ha
        simpa using (h1 a ha).1
      rw [hfil]
      rw [Bool.and_eq_true]
      refine ⟨?_, h2⟩
      simp only [List.all_eq_true, decide_eq_true_eq]
      intro x hx
      exact (h1 x hx).2.1

theorem normpath_residual (p : String) : residualOK (posixNormpath p) = true := by
  unfold posixNormpath
  by_cases hnil : p.data = []
  · rw [if_pos hnil]; decide
  · rw [if_neg hnil]
    have h := normSegs_shape (splitChar '/' p.data) (decide (0 < slashCount p.data)) []
      (by simp) ⟨[], 0, rfl, by simp⟩ (splitChar_no_sep '/' p.data)
    exact normRender_residual _ _ h.1 h.2


/-- C2 (amended): path resolution concatenates and normalises, with
the example `OEBPS/Text` + `../Images/01.jpg` resolving to
`OEBPS/Images/01.jpg`.  The normalised slash-form is guaranteed to have
no empty or `.` parts and `..` only as a leading run (leading slashes
and leading `..` are preserved, or the result is the literal `.`);
backslash replacement happens after normalisation, so
backslash-separated `..` survives.  An escaping reference is rejected
only through lookup failure (skip with warning); an archive entry
literally named with the escaped path is accepted. -/
theorem c2_resolution_amended :
    resolveImgPath "OEBPS/Text" "../Images/01.jpg" = "OEBPS/Images/01.jpg"
    ∧ (∀ s : String, residualOK (posixNormpath s) = true)
    ∧ resolveImgPath "OEBPS/Text" "..\\x" = "OEBPS/Text/../x"
    ∧ (extractResult zEscA mEsc ["c"] "OEBPS").images = ["../etc/x"]
    ∧ extractResult zEscB mEsc ["c"] "OEBPS"
        = ⟨[], [.warnMissingImage "../etc/x", .warnFallback]⟩ := by
  refine ⟨by decide, normpath_residual, by decide, by decide, by decide⟩

/-! ### The title/creator pattern on well-shaped documents -/

theorem charCI_refl (c : Char) : charCI c c = true := by
  simp [charCI]

theorem leadCI_append_self : ∀ (p t : List Char), leadCI p (p ++ t) = true := by
  intro p
  induction p with
  | nil => intro t; rfl
  | cons c cs ih =>
    intro t
    show (charCI c c && leadCI cs (cs ++ t)) = true
    rw [charCI_refl, ih, Bool.and_self]

theorem charCI_lt_eq_false (c : Char) (hc : c ≠ '<') : charCI '<' c = false := by
  unfold charCI
  have h60 : lcN (Char.toNat '<') = 60 := by decide
  rw [h60]
  unfold lcN
  by_cases h : 65 ≤ c.toNat ∧ c.toNat ≤ 90
  · rw [if_pos h]
    simp only [beq_eq_false_iff_ne, ne_eq]
    omega
  · rw [if_neg h]
    simp only [beq_eq_false_iff_ne, ne_eq]
    intro h2
    apply hc
    apply Char.ext
    apply UInt32.ext
    show c.val.toNat = ('<' : Char).val.toNat
    have h3 : ('<' : Char).val.toNat = 60 := by decide
    have h4 : Char.toNat c = c.val.toNat := rfl
    omega

theorem scanGt_cons_eq (c : Char) (cs : List Char) :
    scanGt (c :: cs) = if c == '>' then some cs else scanGt cs := rfl

theorem scanGt_spec :
    ∀ (attrs t : List Char), (∀ c ∈ attrs, c ≠ '>') →
      scanGt (attrs ++ '>' :: t) = some t := by
  intro attrs
  induction attrs with
  | nil => intro t _; show scanGt ('>' :: t) = some t; rw [scanGt_cons_eq, if_pos (by simp)]
  | cons c cs ih =>
    intro t h
    show scanGt (c :: (cs ++ '>' :: t)) = some t
    rw [scanGt_cons_eq,
      if_neg (by simpa using h c (List.mem_cons_self c cs)),
      ih t (fun x hx => h x (List.mem_cons_of_mem c hx))]

theorem splitAtCI_cons_eq (pat : List Char) (c : Char) (cs : List Char) :
    splitAtCI pat (c :: cs)
      = if leadCI pat (c :: cs) then some ([], (c :: cs).drop pat.length)
        else match splitAtCI pat cs with
          | some (pre, post) => some (c :: pre, post)
          | none => none := rfl

theorem splitAtCI_exact (ctail : List Char) :
    ∀ (body rest : List Char), (∀ c ∈ body, c ≠ '<') →
      splitAtCI ('<' :: ctail) (body ++ (('<' :: ctail) ++ rest)) = some (body, rest) := by
  intro body
  induction body with
  | nil =>
    intro rest _
    show splitAtCI ('<' :: ctail) ('<' :: (ctail ++ rest)) = some ([], rest)
    rw [splitAtCI_cons_eq,
      if_pos (show leadCI ('<' :: ctail) ('<' :: (ctail ++ rest)) = true from
        leadCI_append_self ('<' :: ctail) rest)]
    show some ([], List.drop ('<' :: ctail).length (('<' :: ctail) ++ rest)) = some ([], rest)
    rw [List.drop_left]
  | cons c cs ih =>
    intro rest h
    have hc : c ≠ '<' := h c (List.mem_cons_self c cs)
    show splitAtCI ('<' :: ctail) (c :: (cs ++ (('<' :: ctail) ++ rest))) = some (c :: cs, rest)
    rw [splitAtCI_cons_eq,
      if_neg (by
        show ¬ ((charCI '<' c && leadCI ctail (cs ++ ('<' :: ctail ++ rest))) = true)
        rw [charCI_lt_eq_false c hc, Bool.false_and]
        simp),
      ih rest (fun x hx => h x (List.mem_cons_of_mem c hx))]

theorem dcGo_cons_eq (openP closeP : List Char) (c : Char) (cs : List Char) :
    dcGo openP closeP (c :: cs)
      = match tryAt openP closeP (c :: cs) with
        | some cap => some cap
        | none => dcGo openP closeP cs := rfl

theorem dcCapture_exact (tag attrs body rest : List Char)
    (hattrs : ∀ c ∈ attrs, c ≠ '>') (hbody : ∀ c ∈ body, c ≠ '<') :
    dcCapture tag (openOf tag ++ (attrs ++ '>' :: (body ++ (closeOf tag ++ rest))))
      = some body := by
  unfold dcCapture
  have htry : tryAt (openOf tag) (closeOf tag)
      (openOf tag ++ (attrs ++ '>' :: (body ++ (closeOf tag ++ rest)))) = some body := by
    unfold tryAt
    rw [if_pos (leadCI_append_self _ _), List.drop_left,
      scanGt_spec attrs _ hattrs]
    show (match splitAtCI (closeOf tag) (body ++ (closeOf tag ++ rest)) with
      | some (cap, _) => some cap
      | none => none) = some body
    rw [show closeOf tag = '<' :: ('/' :: 'd' :: 'c' :: ':' :: (tag ++ ['>'])) from rfl,
      splitAtCI_exact _ body rest hbody]
  show dcGo (openOf tag) (closeOf tag)
      ('<' :: (('d' :: 'c' :: ':' :: tag) ++ (attrs ++ '>' :: (body ++ (closeOf tag ++ rest)))))
    = some body
  rw [dcGo_cons_eq]
  rw [show ('<' :: (('d' :: 'c' :: ':' :: tag) ++ (attrs ++ '>' :: (body ++ (closeOf tag ++ rest)))))
      = openOf tag ++ (attrs ++ '>' :: (body ++ (closeOf tag ++ rest))) from rfl]
  rw [htry]

theorem dcGo_none (openP closeP : List Char) :
    ∀ (l : List Char), containsCI openP l = false → dcGo openP closeP l = none := by
  intro l
  induction l with
  | nil => intro _; rfl
  | cons c cs ih =>
    intro h
    unfold containsCI at h
    rw [Bool.or_eq_false_iff] at h
    rw [dcGo_cons_eq]
    have htry : tryAt openP closeP (c :: cs) = none := by
      unfold tryAt
      rw [if_neg (by simp [h.1])]
    rw [htry]
    exact ih h.2

/-! ### Substring facts for the generated OPF -/

theorem leadEq_append_self : ∀ (p t : List Char), leadEq p (p ++ t) = true := by
  intro p
  induction p with
  | nil => intro t; rfl
  | cons c cs ih =>
    intro t
    show ((c == c) && leadEq cs (cs ++ t)) = true
    rw [beq_self_eq_true, ih, Bool.and_self]

theorem containsSub_append : ∀ (x pat y : List Char), containsSub (x ++ (pat ++ y)) pat = true := by
  intro x pat y
  induction x with
  | nil =>
    show containsSub (pat ++ y) pat = true
    cases pat with
    | nil =>
      cases y with
      | nil => rfl
      | cons a b =>
        show (leadEq [] (a :: b) || containsSub b []) = true
        rw [show leadEq [] (a :: b) = true from rfl, Bool.true_or]
    | cons p ps =>
      show (leadEq (p :: ps) ((p :: ps) ++ y) || _) = true
      rw [leadEq_append_self, Bool.true_or]
  | cons c cs ih =>
    show (leadEq pat (c :: (cs ++ (pat ++ y))) || containsSub (cs ++ (pat ++ y)) pat) = true
    rw [ih, Bool.or_true]

set_option maxRecDepth 10000 in
theorem opfContentStr_contains_title (t c uuid cover : String) (mi sp : List String) :
    containsSub (opfContentStr t c uuid cover mi sp).data
      ("<dc:title>".data ++ (t.data ++ "</dc:title>".data)) = true := by
  have hB : ("</dc:identifier>\n    <dc:title>" : String)
      = "</dc:identifier>\n    " ++ "<dc:title>" := by decide
  have hC : ("</dc:title>\n    <dc:creator>" : String)
      = "</dc:title>" ++ "\n    <dc:creator>" := by decide
  have hdata : (opfContentStr t c uuid cover mi sp).data
      = (("<?xml version=\"1.0\" encoding=\"UTF-8\"?>\n<package xmlns=\"http://www.idpf.org/2007/opf\" version=\"3.0\" unique-identifier=\"id\">\n<metadata xmlns:dc=\"http://purl.org/dc/elements/1.1/\">\n    <dc:identifier id=\"id\">urn:uuid:" : String).data
          ++ (uuid.data ++ ("</dc:identifier>\n    " : String).data))
        ++ (("<dc:title>".data ++ (t.data ++ "</dc:title>".data))
          ++ (("\n    <dc:creator>" : String).data
            ++ (c.data
              ++ (("</dc:creator>\n    <dc:language>zh</dc:language>\n    " : String).data
                ++ (cover.data
                  ++ (("\n</metadata>\n<manifest>\n    <item id=\"css\" href=\"style.css\" media-type=\"text/css\"/>\n    <item id=\"nav\" href=\"nav.xhtml\" properties=\"nav\" media-type=\"application/xhtml+xml\"/>\n    " : String).data
                    ++ ((String.join mi).data
                      ++ (("\n</manifest>\n<spine>" : String).data
                        ++ ((String.join sp).data
                          ++ ("</spine>\n</package>" : String).data))))))))) := by
    unfold opfContentStr
    rw [hB, hC]
    simp [String.data_append, List.append_assoc]
  rw [hdata]
  exact containsSub_append _ _ _

set_option maxRecDepth 10000 in
theorem opfContentStr_contains_creator (t c uuid cover : String) (mi sp : List String) :
    containsSub (opfContentStr t c uuid cover mi sp).data
      ("<dc:creator>".data ++ (c.data ++ "</dc:creator>".data)) = true := by
  have hC : ("</dc:title>\n    <dc:creator>" : String)
      = "</dc:title>\n    " ++ "<dc:creator>" := by decide
  have hD : ("</dc:creator>\n    <dc:language>zh</dc:language>\n    " : String)
      = "</dc:creator>" ++ "\n    <dc:language>zh</dc:language>\n    " := by decide
  have hdata : (opfContentStr t c uuid cover mi sp).data
      = (("<?xml version=\"1.0\" encoding=\"UTF-8\"?>\n<package xmlns=\"http://www.idpf.org/2007/opf\" version=\"3.0\" unique-identifier=\"id\">\n<metadata xmlns:dc=\"http://purl.org/dc/elements/1.1/\">\n    <dc:identifier id=\"id\">urn:uuid:" : String).data
          ++ (uuid.data ++ (("</dc:identifier>\n    <dc:title>" : String).data
            ++ (t.data ++ ("</dc:title>\n    " : String).data))))
        ++ (("<dc:creator>".data ++ (c.data ++ "</dc:creator>".data))
          ++ (("\n    <dc:language>zh</dc:language>\n    " : String).data
            ++ (cover.data
              ++ (("\n</metadata>\n<manifest>\n    <item id=\"css\" href=\"style.css\" media-type=\"text/css\"/>\n    <item id=\"nav\" href=\"nav.xhtml\" properties=\"nav\" media-type=\"application/xhtml+xml\"/>\n    " : String).data
                ++ ((String.join mi).data
                  ++ (("\n</manifest>\n<spine>" : String).data
                    ++ ((String.join sp).data
                      ++ ("</spine>\n</package>" : String).data))))))) := by
    unfold opfContentStr
    rw [hC, hD]
    simp [String.data_append, List.append_assoc]
  rw [hdata]
  exact containsSub_append _ _ _

theorem getEpubInfo_ok_elim {pr : String → Option String} {z : Archive} {md : EpubMeta} :
    getEpubInfo pr z = .ok md →
    ∃ p o, findOpfPath pr z = some p ∧ zipRead z p = some o
      ∧ md = ⟨extractTitle o, extractCreator o, p, posixDirname p⟩ := by
  intro h
  unfold getEpubInfo at h
  cases h1 : findOpfPath pr z with
  | none => simp only [h1] at h; exact absurd h (by simp)
  | some p =>
    simp only [h1] at h
    cases h2 : zipRead z p with
    | none => simp only [h2] at h; exact absurd h (by simp)
    | some o =>
      simp only [h2] at h
      exact ⟨p, o, rfl, h2, (Except.ok.inj h).symm⟩

/-- C7 (amended): the tolerant pattern search accepts any attribute
content/ordering and any character case, but requires the literal
`dc:` namespace prefix; when no match exists the placeholder default is
produced, never an error. -/
theorem c7_metadata_amended :
    (∀ s : String, containsCI (openOf "title".data) s.data = false →
      extractTitle s = "Unknown Manga")
    ∧ (∀ s : String, containsCI (openOf "creator".data) s.data = false →
      extractCreator s = "Unknown Author")
    ∧ (∀ attrs body rest : List Char, (∀ c ∈ attrs, c ≠ '>') → (∀ c ∈ body, c ≠ '<') →
        extractTitle (String.mk (openOf "title".data
            ++ (attrs ++ '>' :: (body ++ (closeOf "title".data ++ rest)))))
          = String.mk (stripChars body))
    ∧ extractTitle "<dc:title lang=\"x\" id=\"t\">T</dc:title>" = "T"
    ∧ extractTitle "<DC:TiTlE id=\"t\" lang=\"x\">T</dc:title>" = "T" := by
  refine ⟨?_, ?_, ?_, by decide, by decide⟩
  · intro s h
    unfold extractTitle dcCapture
    rw [dcGo_none _ _ _ h]
  · intro s h
    unfold extractCreator dcCapture
    rw [dcGo_none _ _ _ h]
  · intro attrs body rest h1 h2
    unfold extractTitle
    rw [show (String.mk (openOf "title".data
          ++ (attrs ++ '>' :: (body ++ (closeOf "title".data ++ rest))))).data
        = openOf "title".data ++ (attrs ++ '>' :: (body ++ (closeOf "title".data ++ rest)))
        from rfl]
    rw [dcCapture_exact "title".data attrs body rest h1 h2]

/-- Witness for C7 (amended): a document with no title yields the
placeholder, and a title with reordered attributes is extracted. -/
theorem c7_metadata_amended_witness :
    extractTitle "<package/>" = "Unknown Manga"
    ∧ extractTitle (String.mk (openOf "title".data
        ++ (" id=\"a\"".data ++ '>' :: ("My Book".data
          ++ (closeOf "title".data ++ "</metadata>".data)))))
      = String.mk (stripChars "My Book".data) :=
  ⟨c7_metadata_amended.1 "<package/>" (by decide),
    c7_metadata_amended.2.2.1 " id=\"a\"".data "My Book".data "</metadata>".data
      (by decide) (by decide)⟩

/-- C8 counterexample: an archive whose OPF has no title/creator match
(so both placeholders apply) but which yields no images: the rebuild
returns `False` (lines 152-154), contradicting the claim that every
archive with absent metadata still completes successfully. -/
theorem c8_placeholder_counterexample :
    extractTitle opfX = "Unknown Manga"
    ∧ extractCreator opfX = "Unknown Author"
    ∧ rebuild prA popfE zC8 cfgA "ab" = none := by
  refine ⟨by decide, by decide, by decide⟩

/-- C8 (amended): when the pipeline succeeds (structure found, OPF
parsed, at least one image extracted, nonzero pages-per-chapter) and
the OPF text has no title/creator match, the rebuild succeeds and the
output package document carries exactly the placeholder title and
creator. -/
theorem c8_placeholder_amended :
    ∀ (pr : String → Option String)
      (popf : String → Option (List (String × String) × List String))
      (z : Archive) (cfg : StyleConfig) (u : String) (md : EpubMeta)
      (opfStr : String) (m : List (String × String)) (ids : List String),
      getEpubInfo pr z = .ok md →
      zipRead z md.opfPath = some opfStr →
      popf opfStr = some (m, ids) →
      dcCapture "title".data opfStr.data = none →
      dcCapture "creator".data opfStr.data = none →
      (extractResult z m ids md.opfDir).images ≠ [] →
      cfg.pagesPerChapter ≠ 0 →
      ∃ out, rebuild pr popf z cfg u = some out
        ∧ containsSub out.opf.data ("<dc:title>Unknown Manga</dc:title>" : String).data = true
        ∧ containsSub out.opf.data
            ("<dc:creator>Unknown Author</dc:creator>" : String).data = true := by
  intro pr popf z cfg u md opfStr m ids hmd hop hpo hti hcr hne hppc
  obtain ⟨p, o, hfind, hread, hmdeq⟩ := getEpubInfo_ok_elim hmd
  have hpath : md.opfPath = p := by rw [hmdeq]
  rw [hpath, hread] at hop
  have ho : o = opfStr := Option.some.inj hop
  subst ho
  have htitle : md.title = "Unknown Manga" := by
    rw [hmdeq]
    show extractTitle o = "Unknown Manga"
    unfold extractTitle
    rw [hti]
  have hcreator : md.creator = "Unknown Author" := by
    rw [hmdeq]
    show extractCreator o = "Unknown Author"
    unfold extractCreator
    rw [hcr]
  have hop2 : zipRead z md.opfPath = some o := by rw [hpath]; exact hread
  refine ⟨_, rebuild_eq_some_of u hmd hop2 hpo hne hppc, ?_, ?_⟩
  · rw [show (buildOutput md cfg u ((extractResult z m ids md.opfDir).images)).opf
        = opfContentStr md.title md.creator u
            (if ((extractResult z m ids md.opfDir).images).isEmpty then ""
             else "<meta name=\"cover\" content=\"i0\" />")
            (((extractResult z m ids md.opfDir).images).enum.flatMap fun p =>
              [pageItem p.1, imgItem p.1 (extOf p.2)])
            (((extractResult z m ids md.opfDir).images).enum.map fun p => itemrefStr p.1)
        from rfl, htitle, hcreator,
      show ("<dc:title>Unknown Manga</dc:title>" : String).data
        = "<dc:title>".data ++ (("Unknown Manga" : String).data ++ "</dc:title>".data)
        from by decide]
    exact opfContentStr_contains_title _ _ _ _ _ _
  · rw [show (buildOutput md cfg u ((extractResult z m ids md.opfDir).images)).opf
        = opfContentStr md.title md.creator u
            (if ((extractResult z m ids md.opfDir).images).isEmpty then ""
             else "<meta name=\"cover\" content=\"i0\" />")
            (((extractResult z m ids md.opfDir).images).enum.flatMap fun p =>
              [pageItem p.1, imgItem p.1 (extOf p.2)])
            (((extractResult z m ids md.opfDir).images).enum.map fun p => itemrefStr p.1)
        from rfl, htitle, hcreator,
      show ("<dc:creator>Unknown Author</dc:creator>" : String).data
        = "<dc:creator>".data ++ (("Unknown Author" : String).data ++ "</dc:creator>".data)
        from by decide]
    exact opfContentStr_contains_creator _ _ _ _ _ _

set_option maxRecDepth 10000 in
/-- Witness for C8 (amended) at the one-page fixture whose OPF has no
title or creator. -/
theorem c8_placeholder_amended_witness :
    ∃ out, rebuild prA popfA zA cfgA "ab" = some out
      ∧ containsSub out.opf.data ("<dc:title>Unknown Manga</dc:title>" : String).data = true
      ∧ containsSub out.opf.data
          ("<dc:creator>Unknown Author</dc:creator>" : String).data = true :=
  c8_placeholder_amended prA popfA zA cfgA "ab" mdA opfX
    [("c1", "Text/p1.xhtml")] ["c1"] (by rfl) (by decide) (by decide)
    (by decide) (by decide) (by decide) (by decide)

end MangaProc
